import Mathlib

/-!
Shallow embedding of the Blue Lock Terminal store-and-derive core
(src/page.tsx). JavaScript numbers are modelled as exact rationals (ℚ)
for prices/capital and integers (ℤ) for scores, shares and intensities;
a failed numeric parse (JS `NaN` from `parseFloat`/`parseInt`) is
modelled as `none : Option _`. Fallible storage access is modelled with
`Except`/`Option`.
-/

-- ═══════════════════════ TYPES (src/page.tsx lines 9-42) ═══════════════════════

inductive TradeResult
  | WIN
  | LOSS
  | BREAKEVEN
deriving DecidableEq, Repr

inductive DrillCategory
  | TRADING
  | FITNESS
  | SKILL
  | MINDSET
deriving DecidableEq, Repr

structure EgoEntry where
  id : String
  date : String
  score : ℤ
  label : String
  notes : String
deriving DecidableEq, Repr

structure TradeEntry where
  id : String
  date : String
  ticker : String
  entryPrice : ℚ
  exitPrice : ℚ
  shares : ℤ
  result : TradeResult
  pnl : ℚ
  notes : String
deriving DecidableEq, Repr

structure DrillEntry where
  id : String
  date : String
  weapon : String
  intensity : ℤ
  category : DrillCategory
deriving DecidableEq, Repr

structure Settings where
  startingCapital : ℚ
  targetCapital : ℚ
  weeklyInjection : ℚ
  currentCapital : ℚ
deriving DecidableEq, Repr

-- ═══════════════════════ EGO LABEL LOGIC (lines 48-56) ═══════════════════════

def getEgoLabel (score : ℤ) : String :=
  if score ≤ 20 then "DONKEY"
  else if score ≤ 40 then "HALF-BAKED"
  else if score ≤ 55 then "PUPPET"
  else if score ≤ 70 then "HUNGRY"
  else if score ≤ 85 then "EGOIST"
  else if score ≤ 95 then "MONSTER"
  else "DEVOUR"

/-- The position of a label in the seven ordered tiers of §4.4 of the spec,
tier 1 (most negative, DONKEY) through tier 7 (most positive, DEVOUR). -/
def egoTierIndex (label : String) : ℕ :=
  if label = "DONKEY" then 1
  else if label = "HALF-BAKED" then 2
  else if label = "PUPPET" then 3
  else if label = "HUNGRY" then 4
  else if label = "EGOIST" then 5
  else if label = "MONSTER" then 6
  else 7

def egoLabels : List String :=
  ["DONKEY", "HALF-BAKED", "PUPPET", "HUNGRY", "EGOIST", "MONSTER", "DEVOUR"]

-- ═══════════════════ STORAGE UTILITIES (lines 79-96) ═══════════════════

/-- Shallow embedding of `loadFromStorage` (lines 79-87).
`hasWindow` models `typeof window !== 'undefined'`; `getItem` models
`localStorage.getItem(key)`, which may throw (`Except.error`) or return
`null` (`none`); `parse` models `JSON.parse`, which may throw. The JS
source tests `stored ? JSON.parse(stored) : defaultValue`, where an empty
string is falsy, hence the explicit test against `""`. -/
def loadFromStorage {T : Type} (hasWindow : Bool)
    (getItem : Except String (Option String))
    (parse : String → Except String T) (defaultValue : T) : T :=
  if hasWindow = false then defaultValue
  else
    match getItem with
    | .error _ => defaultValue
    | .ok none => defaultValue
    | .ok (some stored) =>
        if stored = "" then defaultValue
        else
          match parse stored with
          | .ok v => v
          | .error _ => defaultValue

-- ═══════════════ STORE STATE AND DERIVED STATISTICS (lines 104-183) ═══════════════

def defaultSettings : Settings :=
  { startingCapital := 4705, targetCapital := 10000,
    weeklyInjection := 60, currentCapital := 4705 }

structure StoreState where
  egoEntries : List EgoEntry
  tradeEntries : List TradeEntry
  drillEntries : List DrillEntry
  settings : Settings
  loaded : Bool
deriving DecidableEq, Repr

def initialState : StoreState :=
  { egoEntries := [], tradeEntries := [], drillEntries := [],
    settings := defaultSettings, loaded := false }

/-- Embedding of `winRate` (lines 166-168):
`Math.round((wins / total) * 100)`, 0 when no trades. `Math.round`
rounds half-way cases toward positive infinity: `⌊x + 1/2⌋`. -/
def jsRound (q : ℚ) : ℤ := ⌊q + 1 / 2⌋

def winRate (tradeEntries : List TradeEntry) : ℤ :=
  if 0 < tradeEntries.length then
    jsRound (((tradeEntries.filter (fun t => t.result = .WIN)).length /
      (tradeEntries.length : ℚ)) * 100)
  else 0

def totalPnl (tradeEntries : List TradeEntry) : ℚ :=
  tradeEntries.foldl (fun sum t => sum + t.pnl) 0

/-- Embedding of the `streak` loop body (lines 172-179): iterate from the
last entry backward, counting while `intensity >= 5`, and `break` at the
first entry below the threshold. Iterating a list from its last element
backward is folding over its reverse. -/
def streakAux : List DrillEntry → ℕ
  | [] => 0
  | d :: rest => if 5 ≤ d.intensity then streakAux rest + 1 else 0

def streak (drillEntries : List DrillEntry) : ℕ :=
  streakAux drillEntries.reverse

/-- Embedding of `progressPercent` (lines 181-183):
`Math.min(100, Math.max(0, ((current - starting) / (target - starting)) * 100))`.
In ℚ, division by zero yields 0 (the JS source yields `NaN` when
`targetCapital == startingCapital`; the spec flags that case as an open
question and it is outside every theorem below). -/
def progressPercent (s : Settings) : ℚ :=
  min 100 (max 0
    (((s.currentCapital - s.startingCapital) /
      (s.targetCapital - s.startingCapital)) * 100))

-- ═══════════════ STATS PAGE DERIVATIONS (lines 810-829) ═══════════════

def wins (tradeEntries : List TradeEntry) : ℕ :=
  (tradeEntries.filter (fun t => t.result = .WIN)).length

def losses (tradeEntries : List TradeEntry) : ℕ :=
  (tradeEntries.filter (fun t => t.result = .LOSS)).length

/-- Embedding of `avgWin` (lines 817-819): mean `pnl` over the WIN
subset, 0 when there are no wins. -/
def avgWin (tradeEntries : List TradeEntry) : ℚ :=
  if 0 < wins tradeEntries then
    totalPnl (tradeEntries.filter (fun t => t.result = .WIN)) / wins tradeEntries
  else 0

/-- Embedding of `avgLoss` (lines 820-822):
`Math.abs(sum of pnl over the LOSS subset / losses)`, 0 when there are no
losses. Note the source takes the absolute value of the mean, not the
mean of the absolute values. -/
def avgLoss (tradeEntries : List TradeEntry) : ℚ :=
  if 0 < losses tradeEntries then
    |totalPnl (tradeEntries.filter (fun t => t.result = .LOSS)) / losses tradeEntries|
  else 0

/-- Modelled from the spec (§4.3): "mean absolute value of `pnl` over the
LOSS subset; 0 if the subset is empty", read as the mean of the absolute
values. Stated only to compare with the source's `avgLoss`. -/
def avgLossSpec (tradeEntries : List TradeEntry) : ℚ :=
  if 0 < losses tradeEntries then
    ((tradeEntries.filter (fun t => t.result = .LOSS)).map
      (fun t => |t.pnl|)).sum / losses tradeEntries
  else 0

-- ═══════════════ FORM HANDLERS AND RESET ═══════════════

/-- JavaScript `String.prototype.trim()`: removes leading and trailing
whitespace. Defined structurally on the character list so that it
evaluates inside the kernel. -/
def jsTrim (s : String) : String :=
  ⟨((s.data.dropWhile Char.isWhitespace).reverse.dropWhile
    Char.isWhitespace).reverse⟩

/-- JavaScript `String.prototype.toUpperCase()` on ASCII text, defined
structurally on the character list. -/
def jsToUpper (s : String) : String :=
  ⟨s.data.map Char.toUpper⟩

/-- JavaScript `x || d` on a numeric expression: `NaN` (modelled `none`)
and `0` are falsy and give `d`; any other number passes through. -/
def jsOrElse (x : Option ℚ) (d : ℚ) : ℚ :=
  match x with
  | none => d
  | some v => if v = 0 then d else v

def jsOrElseInt (x : Option ℤ) (d : ℤ) : ℤ :=
  match x with
  | none => d
  | some v => if v = 0 then d else v

namespace TradeLog

/-- Embedding of `TradeLog.handleSubmit` (lines 527-551).
`entryPrice`, `exitPrice` model `parseFloat` results (`none` = `NaN`),
`shares` models the `parseInt` result; the source coerces with
`parseFloat(entryPrice) || 0`, `parseFloat(exitPrice) || 0`,
`parseInt(shares) || 1`, computes `pnl = (exitP - entryP) * sh` and
appends one entry via `onAdd` = `setTradeEntries([...entries, entry])`. -/
def handleSubmit (id date ticker : String)
    (entryPrice exitPrice : Option ℚ) (shares : Option ℤ)
    (result : TradeResult) (notes : String)
    (entries : List TradeEntry) : List TradeEntry :=
  let entryP := jsOrElse entryPrice 0
  let exitP := jsOrElse exitPrice 0
  let sh := jsOrElseInt shares 1
  let pnl := (exitP - entryP) * sh
  entries ++ [{ id := id, date := date, ticker := jsToUpper ticker,
                entryPrice := entryP, exitPrice := exitP, shares := sh,
                result := result, pnl := pnl, notes := notes }]

end TradeLog

namespace WeaponDrills

/-- Embedding of `WeaponDrills.handleSubmit` (lines 694-707):
`if (!weapon.trim()) return;` — a string is falsy exactly when empty, so
a weapon that trims to the empty string is a silent no-op; otherwise one
entry is appended via `onAdd` = `setDrillEntries([...entries, entry])`. -/
def handleSubmit (id date weapon : String) (intensity : ℤ)
    (category : DrillCategory) (entries : List DrillEntry) : List DrillEntry :=
  if jsTrim weapon = "" then entries
  else entries ++ [{ id := id, date := date, weapon := weapon,
                     intensity := intensity, category := category }]

end WeaponDrills

/-- Embedding of `onReset` (lines 259-263): sets the ego, trade and
drill collections to `[]` and does not touch `settings` or `loaded`. -/
def onReset (s : StoreState) : StoreState :=
  { s with egoEntries := [], tradeEntries := [], drillEntries := [] }

-- ═══════════════ PERSISTENCE LIFECYCLE (lines 115-159) ═══════════════

/-- The four storage keys of `STORAGE_KEYS` (lines 72-77). -/
inductive StorageKey
  | ego
  | trades
  | drills
  | settings
deriving DecidableEq, Repr

/-- Events of the component lifecycle. `loadDone` is the
`requestAnimationFrame` callback of the mount effect (lines 130-136): it
installs the four loaded collections and sets `loaded` to `true` in one
batch. `save k` is a run of the corresponding `useEffect`-triggered save
callback (lines 140-159). The mutation events model the `onAdd`,
`onUpdate` and `onReset` callbacks wired into the pages (lines 229-264). -/
inductive StoreEvent
  | loadDone (ego : List EgoEntry) (trades : List TradeEntry)
      (drills : List DrillEntry) (settings : Settings)
  | save (k : StorageKey)
  | addEgo (e : EgoEntry)
  | addTrade (t : TradeEntry)
  | addDrill (d : DrillEntry)
  | updateSettings (s : Settings)
  | reset
deriving Repr

def StoreEvent.isLoadDone : StoreEvent → Bool
  | .loadDone _ _ _ _ => true
  | _ => false

/-- One lifecycle step. The second component is the storage write the
step performs, if any: every save callback is guarded by `if (loaded)`
(lines 140-154), so a `save k` event emits a write of key `k` exactly
when the state is loaded, and no other event writes storage. -/
def storeStep (s : StoreState) : StoreEvent → StoreState × Option StorageKey
  | .loadDone ego trades drills settings =>
      ({ egoEntries := ego, tradeEntries := trades, drillEntries := drills,
         settings := settings, loaded := true }, none)
  | .save k => (s, if s.loaded then some k else none)
  | .addEgo e => ({ s with egoEntries := s.egoEntries ++ [e] }, none)
  | .addTrade t => ({ s with tradeEntries := s.tradeEntries ++ [t] }, none)
  | .addDrill d => ({ s with drillEntries := s.drillEntries ++ [d] }, none)
  | .updateSettings st => ({ s with settings := st }, none)
  | .reset => (onReset s, none)

/-- The sequence of storage writes (one `Option StorageKey` per event)
performed when running a list of events from a given state. -/
def runWrites (s : StoreState) : List StoreEvent → List (Option StorageKey)
  | [] => []
  | e :: rest => (storeStep s e).2 :: runWrites (storeStep s e).1 rest

-- ═══════════════ CONCRETE SAMPLE RECORDS FOR EXAMPLES ═══════════════

/-- A trade entry with the given result tag and pnl; the other fields
are irrelevant to the statistics under study. -/
def mkTrade (result : TradeResult) (pnl : ℚ) : TradeEntry :=
  { id := "", date := "", ticker := "", entryPrice := 0, exitPrice := 0,
    shares := 1, result := result, pnl := pnl, notes := "" }

/-- A drill entry with the given intensity; the other fields are
irrelevant to the streak computation. -/
def mkDrill (intensity : ℤ) : DrillEntry :=
  { id := "", date := "", weapon := "w", intensity := intensity,
    category := .SKILL }

-- ═══════════════════════════ THEOREMS ═══════════════════════════

/-- C5: `onReset` (the store's `resetAll`) leaves the ego, trade and
drill collections empty and leaves the settings record exactly equal to
its value before the operation. -/
theorem C5_resetAll_clears_collections_keeps_settings (s : StoreState) :
    (onReset s).egoEntries = [] ∧ (onReset s).tradeEntries = [] ∧
    (onReset s).drillEntries = [] ∧ (onReset s).settings = s.settings :=
  ⟨rfl, rfl, rfl, rfl⟩

/-- C7 counterexample: the weapon `" "` is a non-empty string, yet
submitting it is a no-op — so "a submission with a non-empty weapon
appends exactly one entry" fails as stated. -/
theorem C7_counterexample_space_weapon_is_noop :
    (" " : String) ≠ "" ∧
    WeaponDrills.handleSubmit "0" "d" " " 5 .TRADING [] = [] := by
  refine ⟨by decide, ?_⟩
  decide

/-- C7 (amended): submitting a drill whose weapon trims to the empty
string is silently a no-op, and submitting one whose weapon trims to a
non-empty string appends exactly one entry. -/
theorem C7_blank_weapon_noop_nonblank_appends
    (id date weapon : String) (intensity : ℤ) (category : DrillCategory)
    (entries : List DrillEntry) :
    (jsTrim weapon = "" →
      WeaponDrills.handleSubmit id date weapon intensity category entries
        = entries) ∧
    (jsTrim weapon ≠ "" →
      WeaponDrills.handleSubmit id date weapon intensity category entries
        = entries ++ [{ id := id, date := date, weapon := weapon,
                        intensity := intensity, category := category }]) := by
  constructor <;> intro h <;> simp [WeaponDrills.handleSubmit, h]

/-- C7 witness: a concrete non-blank submission appends one entry. -/
theorem C7_blank_weapon_noop_nonblank_appends_witness :
    WeaponDrills.handleSubmit "0" "d" "shot" 7 .SKILL []
      = [{ id := "0", date := "d", weapon := "shot", intensity := 7,
           category := .SKILL }] :=
  (C7_blank_weapon_noop_nonblank_appends "0" "d" "shot" 7 .SKILL []).2
    (by decide)

/-- C10: in `TradeLog.handleSubmit`, a failed price parse is coerced to
0, a failed or zero shares parse is coerced to 1, the stored `pnl` is
(coerced exit − coerced entry) * coerced shares, and exactly one entry is
appended; in particular, empty price fields with shares input `0` yield
entryPrice 0, exitPrice 0, shares 1 and pnl 0. -/
theorem C10_trade_submit_coercions
    (id date ticker : String) (entryPrice exitPrice : Option ℚ)
    (shares : Option ℤ) (result : TradeResult) (notes : String)
    (entries : List TradeEntry) :
    ∃ e : TradeEntry,
      TradeLog.handleSubmit id date ticker entryPrice exitPrice shares
          result notes entries = entries ++ [e] ∧
      (entryPrice = none → e.entryPrice = 0) ∧
      (exitPrice = none → e.exitPrice = 0) ∧
      (shares = none ∨ shares = some 0 → e.shares = 1) ∧
      e.pnl = (e.exitPrice - e.entryPrice) * e.shares ∧
      (entryPrice = none → exitPrice = none → shares = some 0 →
        e.entryPrice = 0 ∧ e.exitPrice = 0 ∧ e.shares = 1 ∧ e.pnl = 0) := by
  refine ⟨_, rfl, ?_, ?_, ?_, rfl, ?_⟩
  · rintro rfl; rfl
  · rintro rfl; rfl
  · rintro (rfl | rfl) <;> rfl
  · rintro rfl rfl rfl
    refine ⟨rfl, rfl, rfl, ?_⟩
    simp [jsOrElse, jsOrElseInt]

/-- C10 witness: the concrete submission with empty price fields and
shares `0` appends exactly the degenerate entry. -/
theorem C10_trade_submit_coercions_witness :
    ∃ e : TradeEntry,
      TradeLog.handleSubmit "0" "d" "" none none (some 0) .WIN "" []
          = [] ++ [e] ∧
      e.entryPrice = 0 ∧ e.exitPrice = 0 ∧ e.shares = 1 ∧ e.pnl = 0 := by
  obtain ⟨e, happ, h1, h2, h3, hpnl, hconc⟩ :=
    C10_trade_submit_coercions "0" "d" "" none none (some 0) .WIN "" []
  exact ⟨e, happ, hconc rfl rfl rfl⟩

/-- C8: the storage adapter's load returns the deserialized value when
the key is present and its bytes parse, and returns the default — never
raising (the embedded function is total) — when the key is absent, the
bytes fail to parse, the read itself throws, or no window (storage
facility) is available. The hypothesis records that `JSON.parse` always
rejects the empty string, the one string JavaScript truthiness also
short-circuits on. -/
theorem C8_load_defaults_on_all_failure_paths {T : Type}
    (getItem : Except String (Option String))
    (parse : String → Except String T) (defaultValue : T)
    (hEmpty : ∀ v, parse "" ≠ .ok v) :
    (∀ s v, getItem = .ok (some s) → parse s = .ok v →
      loadFromStorage true getItem parse defaultValue = v) ∧
    (getItem = .ok none →
      loadFromStorage true getItem parse defaultValue = defaultValue) ∧
    (∀ s msg, getItem = .ok (some s) → parse s = .error msg →
      loadFromStorage true getItem parse defaultValue = defaultValue) ∧
    (∀ msg, getItem = .error msg →
      loadFromStorage true getItem parse defaultValue = defaultValue) ∧
    loadFromStorage false getItem parse defaultValue = defaultValue := by
  refine ⟨?_, ?_, ?_, ?_, rfl⟩
  · rintro s v rfl hv
    by_cases hs : s = ""
    · exact absurd (hs ▸ hv) (hEmpty v)
    · simp [loadFromStorage, hs, hv]
  · rintro rfl; rfl
  · rintro s msg rfl hv
    by_cases hs : s = ""
    · simp [loadFromStorage, hs]
    · simp [loadFromStorage, hs, hv]
  · rintro msg rfl; rfl

/-- C8 witness: a concrete present-and-parsable read returns the parsed
value, under a parse function that rejects the empty string. -/
theorem C8_load_defaults_on_all_failure_paths_witness :
    loadFromStorage true (Except.ok (some "5"))
      (fun s => if s = "5" then Except.ok 5 else Except.error s) (0 : ℕ) = 5 :=
  (C8_load_defaults_on_all_failure_paths (Except.ok (some "5"))
      (fun s => if s = "5" then Except.ok 5 else Except.error s) 0
      (fun v h => by simp at h)).1 "5" 5 rfl (by simp)

/-- The tier index of the label of a score, written as the source's
threshold chain. -/
lemma egoTierIndex_getEgoLabel (s : ℤ) :
    egoTierIndex (getEgoLabel s) =
      if s ≤ 20 then 1 else if s ≤ 40 then 2 else if s ≤ 55 then 3
      else if s ≤ 70 then 4 else if s ≤ 85 then 5 else if s ≤ 95 then 6
      else 7 := by
  unfold getEgoLabel
  split_ifs <;> decide

/-- C3: on scores in [0, 100], the classification returns one of the
seven ordered labels; the tier index is fixed by the inclusive
upper-bound thresholds 20, 40, 55, 70, 85, 95; and the tier index is
monotonically non-decreasing in the score. -/
theorem C3_classification_tiers_and_monotone (s : ℤ)
    (h0 : 0 ≤ s) (h100 : s ≤ 100) :
    getEgoLabel s ∈ egoLabels ∧
    (s ≤ 20 → egoTierIndex (getEgoLabel s) = 1) ∧
    (20 < s → s ≤ 40 → egoTierIndex (getEgoLabel s) = 2) ∧
    (40 < s → s ≤ 55 → egoTierIndex (getEgoLabel s) = 3) ∧
    (55 < s → s ≤ 70 → egoTierIndex (getEgoLabel s) = 4) ∧
    (70 < s → s ≤ 85 → egoTierIndex (getEgoLabel s) = 5) ∧
    (85 < s → s ≤ 95 → egoTierIndex (getEgoLabel s) = 6) ∧
    (95 < s → egoTierIndex (getEgoLabel s) = 7) ∧
    (∀ t : ℤ, s ≤ t → t ≤ 100 →
      egoTierIndex (getEgoLabel s) ≤ egoTierIndex (getEgoLabel t)) := by
  refine ⟨?_, ?_, ?_, ?_, ?_, ?_, ?_, ?_, ?_⟩
  · unfold getEgoLabel egoLabels
    split_ifs <;> decide
  · intro h1; rw [egoTierIndex_getEgoLabel]; rw [if_pos h1]
  · intro h1 h2; rw [egoTierIndex_getEgoLabel]; split_ifs <;> omega
  · intro h1 h2; rw [egoTierIndex_getEgoLabel]; split_ifs <;> omega
  · intro h1 h2; rw [egoTierIndex_getEgoLabel]; split_ifs <;> omega
  · intro h1 h2; rw [egoTierIndex_getEgoLabel]; split_ifs <;> omega
  · intro h1 h2; rw [egoTierIndex_getEgoLabel]; split_ifs <;> omega
  · intro h1; rw [egoTierIndex_getEgoLabel]; split_ifs <;> omega
  · intro t hst ht
    rw [egoTierIndex_getEgoLabel s, egoTierIndex_getEgoLabel t]
    split_ifs <;> omega

/-- C3 witness: a score of 50 sits in tier 3 and its tier is at most
the tier of the score 90. -/
theorem C3_classification_tiers_and_monotone_witness :
    egoTierIndex (getEgoLabel 50) = 3 ∧
    egoTierIndex (getEgoLabel 50) ≤ egoTierIndex (getEgoLabel 90) :=
  ⟨(C3_classification_tiers_and_monotone 50 (by decide) (by decide)).2.2.2.1
      (by decide) (by decide),
   (C3_classification_tiers_and_monotone 50 (by decide)
      (by decide)).2.2.2.2.2.2.2.2 90 (by decide) (by decide)⟩

/-- The source's `reduce((sum, t) => sum + t.pnl, 0)` is the sum of the
pnl values. -/
lemma foldl_add_pnl (l : List TradeEntry) :
    ∀ a : ℚ, l.foldl (fun sum t => sum + t.pnl) a
      = a + (l.map (fun t => t.pnl)).sum := by
  induction l with
  | nil => simp
  | cons x xs ih =>
    intro a
    simp only [List.foldl_cons, List.map_cons, List.sum_cons, ih]
    ring

lemma totalPnl_eq_sum (l : List TradeEntry) :
    totalPnl l = (l.map (fun t => t.pnl)).sum := by
  simpa using foldl_add_pnl l 0

lemma list_sum_nonpos (l : List ℚ) (h : ∀ x ∈ l, x ≤ 0) : l.sum ≤ 0 := by
  induction l with
  | nil => simp
  | cons x xs ih =>
    have hx : x ≤ 0 := h x (by simp)
    have := ih (fun y hy => h y (by simp [hy]))
    simp only [List.sum_cons]
    linarith

lemma abs_list_sum_of_nonpos (l : List ℚ) (h : ∀ x ∈ l, x ≤ 0) :
    |l.sum| = (l.map (fun x => |x|)).sum := by
  induction l with
  | nil => simp
  | cons x xs ih =>
    have hx : x ≤ 0 := h x (by simp)
    have hxs : ∀ y ∈ xs, y ≤ 0 := fun y hy => h y (by simp [hy])
    have hsum : xs.sum ≤ 0 := list_sum_nonpos xs hxs
    simp only [List.sum_cons, List.map_cons]
    rw [abs_of_nonpos (by linarith), ← ih hxs, abs_of_nonpos hx,
      abs_of_nonpos hsum]
    ring

/-- C9: the win rate is 0 with no trades and otherwise the round-half-up
of `100 * wins / total`; over [WIN, WIN, LOSS] it is 67. -/
theorem C9_winRate_rounded (ts : List TradeEntry) :
    (ts = [] → winRate ts = 0) ∧
    (ts ≠ [] → winRate ts = ⌊100 * (wins ts : ℚ) / ts.length + 1 / 2⌋) ∧
    winRate [mkTrade .WIN 0, mkTrade .WIN 0, mkTrade .LOSS 0] = 67 := by
  refine ⟨?_, ?_, ?_⟩
  · rintro rfl; rfl
  · intro h
    have hl : 0 < ts.length := List.length_pos.mpr h
    unfold winRate jsRound
    rw [if_pos hl]
    congr 1
    have : (wins ts : ℚ) / ts.length * 100 = 100 * (wins ts : ℚ) / ts.length := by
      ring
    rw [← this]
    rfl
  · have hf : ([mkTrade .WIN 0, mkTrade .WIN 0, mkTrade .LOSS 0].filter
        (fun t => t.result = TradeResult.WIN)).length = 2 := by decide
    unfold winRate
    rw [if_pos (by decide), hf]
    norm_num [jsRound, Int.floor_eq_iff]

/-- C9 witness: the theorem at the concrete trade lists. -/
theorem C9_winRate_rounded_witness :
    winRate [] = 0 ∧
    winRate [mkTrade .WIN 0] = ⌊100 * (wins [mkTrade .WIN 0] : ℚ) /
      ([mkTrade .WIN 0] : List TradeEntry).length + 1 / 2⌋ :=
  ⟨(C9_winRate_rounded []).1 rfl,
   (C9_winRate_rounded [mkTrade .WIN 0]).2.1 (by simp)⟩

/-- C1 counterexample: over the LOSS-tagged trades with pnl 20 and −10
(the pnl/result disagreement the spec explicitly permits), the code's
average loss is |(20 − 10) / 2| = 5, while the mean of the absolute
values is (20 + 10) / 2 = 15. -/
theorem C1_counterexample_mixed_sign_losses :
    avgLoss [mkTrade .LOSS 20, mkTrade .LOSS (-10)] = 5 ∧
    avgLossSpec [mkTrade .LOSS 20, mkTrade .LOSS (-10)] = 15 := by
  have hf : ([mkTrade .LOSS 20, mkTrade .LOSS (-10)].filter
      (fun t => t.result = TradeResult.LOSS))
        = [mkTrade .LOSS 20, mkTrade .LOSS (-10)] := by decide
  constructor
  · unfold avgLoss losses
    rw [hf]
    norm_num [totalPnl, List.foldl, mkTrade]
  · unfold avgLossSpec losses
    rw [hf]
    norm_num [mkTrade]

/-- C1 (amended): the average-loss statistic is the absolute value of
the mean of `pnl` over the LOSS subset, 0 when that subset is empty; it
agrees with the mean of the absolute values whenever every LOSS-tagged
pnl is nonpositive, and over LOSS trades with pnl −20 and −10 it equals
15 (a positive magnitude). -/
theorem C1_avgLoss_abs_of_mean (ts : List TradeEntry) :
    (losses ts = 0 → avgLoss ts = 0) ∧
    (0 < losses ts → avgLoss ts =
      |totalPnl (ts.filter (fun t => t.result = .LOSS))| / losses ts) ∧
    ((∀ t ∈ ts, t.result = .LOSS → t.pnl ≤ 0) → avgLoss ts = avgLossSpec ts) ∧
    avgLoss [mkTrade .LOSS (-20), mkTrade .LOSS (-10)] = 15 := by
  refine ⟨?_, ?_, ?_, ?_⟩
  · intro h
    unfold avgLoss
    rw [if_neg (by omega)]
  · intro h
    unfold avgLoss
    rw [if_pos h, abs_div,
      abs_of_nonneg (show (0 : ℚ) ≤ (losses ts : ℚ) from Nat.cast_nonneg _)]
  · intro hall
    by_cases h : 0 < losses ts
    · have hpf : ∀ x ∈ (ts.filter (fun t => t.result = .LOSS)).map
          (fun t => t.pnl), x ≤ 0 := by
        intro x hx
        obtain ⟨t, ht, rfl⟩ := List.mem_map.mp hx
        have hmem := List.mem_filter.mp ht
        exact hall t hmem.1 (by simpa using hmem.2)
      unfold avgLoss avgLossSpec
      rw [if_pos h, if_pos h, totalPnl_eq_sum, abs_div,
        abs_of_nonneg (show (0 : ℚ) ≤ (losses ts : ℚ) from Nat.cast_nonneg _),
        abs_list_sum_of_nonpos _ hpf, List.map_map]
      rfl
    · unfold avgLoss avgLossSpec
      rw [if_neg h, if_neg h]
  · have hf : ([mkTrade .LOSS (-20), mkTrade .LOSS (-10)].filter
        (fun t => t.result = TradeResult.LOSS))
          = [mkTrade .LOSS (-20), mkTrade .LOSS (-10)] := by decide
    unfold avgLoss losses
    rw [hf]
    norm_num [totalPnl, List.foldl, mkTrade]

/-- C1 witness: the theorem at the two all-nonpositive LOSS trades. -/
theorem C1_avgLoss_abs_of_mean_witness :
    avgLoss [mkTrade .LOSS (-20), mkTrade .LOSS (-10)]
      = avgLossSpec [mkTrade .LOSS (-20), mkTrade .LOSS (-10)] :=
  (C1_avgLoss_abs_of_mean [mkTrade .LOSS (-20), mkTrade .LOSS (-10)]).2.2.1
    (by decide)

/-- A settings record with the target below the starting capital, which
the source's form permits (no sign or ordering constraint is enforced). -/
def exSettingsC2 : Settings :=
  { startingCapital := 100, targetCapital := 0, weeklyInjection := 0,
    currentCapital := 50 }

/-- C2 counterexample: with starting capital 100, target 0 and current
capital 50, the current capital is below the starting capital yet the
progress percent is 50, not 0. -/
theorem C2_counterexample_inverted_target :
    exSettingsC2.currentCapital < exSettingsC2.startingCapital ∧
    progressPercent exSettingsC2 ≠ 0 := by
  constructor
  · norm_num [exSettingsC2]
  · have : progressPercent exSettingsC2 = 50 := by
      unfold progressPercent exSettingsC2
      norm_num
    rw [this]
    norm_num

/-- C2 (amended): the progress percent equals the clamp of
`100 * (current − starting) / (target − starting)` to [0, 100], always
lies in [0, 100], and — whenever the starting capital is strictly below
the target capital — a current capital below the starting capital yields
0 and one at or above the target yields 100. -/
theorem C2_progressPercent_clamped (st : Settings) :
    progressPercent st = min 100 (max 0
      (((st.currentCapital - st.startingCapital) /
        (st.targetCapital - st.startingCapital)) * 100)) ∧
    0 ≤ progressPercent st ∧ progressPercent st ≤ 100 ∧
    (st.startingCapital < st.targetCapital →
      ((st.currentCapital < st.startingCapital → progressPercent st = 0) ∧
       (st.targetCapital ≤ st.currentCapital → progressPercent st = 100))) := by
  refine ⟨rfl, ?_, ?_, ?_⟩
  · exact le_min (by norm_num) (le_max_left _ _)
  · exact min_le_left _ _
  · intro hst
    have hd : 0 < st.targetCapital - st.startingCapital := by linarith
    constructor
    · intro hc
      have hr : (st.currentCapital - st.startingCapital) /
          (st.targetCapital - st.startingCapital) < 0 :=
        div_neg_of_neg_of_pos (by linarith) hd
      have hx : ((st.currentCapital - st.startingCapital) /
          (st.targetCapital - st.startingCapital)) * 100 < 0 := by nlinarith
      unfold progressPercent
      rw [max_eq_left hx.le, min_eq_right (by norm_num)]
    · intro htc
      have h1 : 1 ≤ (st.currentCapital - st.startingCapital) /
          (st.targetCapital - st.startingCapital) :=
        (one_le_div hd).mpr (by linarith)
      have hx : 100 ≤ ((st.currentCapital - st.startingCapital) /
          (st.targetCapital - st.startingCapital)) * 100 := by nlinarith
      unfold progressPercent
      rw [max_eq_right (by linarith), min_eq_left hx]

/-- A settings record with the target above the starting capital and
the current capital below the starting capital. -/
def exSettingsBelow : Settings :=
  { startingCapital := 100, targetCapital := 200, weeklyInjection := 0,
    currentCapital := 50 }

/-- C2 witness: with starting 100, target 200, current 50 the progress
percent is 0. -/
theorem C2_progressPercent_clamped_witness :
    progressPercent exSettingsBelow = 0 :=
  ((C2_progressPercent_clamped exSettingsBelow).2.2.2
    (by norm_num [exSettingsBelow])).1 (by norm_num [exSettingsBelow])

lemma streakAux_le_length (l : List DrillEntry) : streakAux l ≤ l.length := by
  induction l with
  | nil => simp [streakAux]
  | cons d rest ih =>
    by_cases h : 5 ≤ d.intensity
    · simp only [streakAux, if_pos h, List.length_cons]
      omega
    · simp only [streakAux, if_neg h]
      omega

lemma streakAux_take (l : List DrillEntry) :
    ∀ x ∈ l.take (streakAux l), 5 ≤ x.intensity := by
  induction l with
  | nil => simp [streakAux]
  | cons d rest ih =>
    by_cases h : 5 ≤ d.intensity
    · simp only [streakAux, if_pos h, List.take_succ_cons, List.mem_cons]
      rintro x (rfl | hx)
      · exact h
      · exact ih x hx
    · simp [streakAux, if_neg h]

lemma streakAux_maximal (l : List DrillEntry) (n : ℕ) (hn : n ≤ l.length)
    (h : ∀ x ∈ l.take n, 5 ≤ x.intensity) : n ≤ streakAux l := by
  induction l generalizing n with
  | nil =>
    simp only [List.length_nil, Nat.le_zero] at hn
    simp [hn, streakAux]
  | cons d rest ih =>
    cases n with
    | zero => omega
    | succ m =>
      have hd : 5 ≤ d.intensity := h d (by simp [List.take_succ_cons])
      have hm : m ≤ streakAux rest :=
        ih m (by simpa using hn)
          (fun x hx => h x (by simp [List.take_succ_cons, hx]))
      simp only [streakAux, if_pos hd]
      omega

/-- C4: the streak is the length of the maximal suffix of the drill
collection (in insertion order) whose entries all have intensity at
least 5 — every entry of that suffix qualifies, and any longer
all-qualifying suffix bound is impossible; over intensities [8, 3, 9, 9]
it equals 2. -/
theorem C4_streak_counts_qualifying_suffix (ds : List DrillEntry) :
    streak ds ≤ ds.length ∧
    (∀ d ∈ ds.drop (ds.length - streak ds), 5 ≤ d.intensity) ∧
    (∀ n, n ≤ ds.length →
      (∀ d ∈ ds.drop (ds.length - n), 5 ≤ d.intensity) → n ≤ streak ds) ∧
    streak [mkDrill 8, mkDrill 3, mkDrill 9, mkDrill 9] = 2 := by
  refine ⟨?_, ?_, ?_, ?_⟩
  · have := streakAux_le_length ds.reverse
    simpa [streak] using this
  · intro d hd
    have h := streakAux_take ds.reverse d
    rw [List.take_reverse, List.mem_reverse] at h
    exact h (by simpa [streak] using hd)
  · intro n hn hq
    have h := streakAux_maximal ds.reverse n (by simpa using hn) ?_
    · simpa [streak] using h
    · intro x hx
      rw [List.take_reverse, List.mem_reverse] at hx
      exact hq x hx
  · decide

/-- C4 witness: a singleton qualifying collection has streak at least
1. -/
theorem C4_streak_counts_qualifying_suffix_witness :
    1 ≤ streak [mkDrill 9] :=
  (C4_streak_counts_qualifying_suffix [mkDrill 9]).2.2.1 1 (by decide)
    (by decide)

lemma storeStep_none_of_unloaded (s : StoreState) (e : StoreEvent)
    (hs : s.loaded = false) : (storeStep s e).2 = none := by
  cases e <;> simp [storeStep, hs]

lemma storeStep_preserves_unloaded (s : StoreState) (e : StoreEvent)
    (hs : s.loaded = false) (he : e.isLoadDone = false) :
    (storeStep s e).1.loaded = false := by
  cases e <;> simp_all [storeStep, StoreEvent.isLoadDone, onReset]

lemma runWrites_gate (evs : List StoreEvent) :
    ∀ s : StoreState, s.loaded = false → ∀ i k,
      (runWrites s evs).get? i = some (some k) →
      ∃ j, j < i ∧ ∃ ev, evs.get? j = some ev ∧ ev.isLoadDone = true := by
  induction evs with
  | nil =>
    intro s hs i k h
    simp [runWrites] at h
  | cons e rest ih =>
    intro s hs i k h
    cases i with
    | zero =>
      rw [runWrites] at h
      simp [storeStep_none_of_unloaded s e hs] at h
    | succ i' =>
      rw [runWrites] at h
      simp only [List.get?_cons_succ] at h
      by_cases he : e.isLoadDone = true
      · exact ⟨0, Nat.succ_pos _, e, rfl, he⟩
      · have hs' : (storeStep s e).1.loaded = false :=
          storeStep_preserves_unloaded s e hs (by simpa using he)
        obtain ⟨j, hj, ev, hev, hl⟩ := ih (storeStep s e).1 hs' i' k h
        exact ⟨j + 1, by omega, ev, by simpa using hev, hl⟩

/-- C6: running any event sequence from the initial (unready) store
state, every storage write is preceded by the completion of the initial
load: if the i-th step performs a write of any key, some earlier event is
the load-completion event. The save callbacks are gated on the `loaded`
flag, which only the load-completion batch sets. -/
theorem C6_no_write_before_load_completes (evs : List StoreEvent) (i : ℕ)
    (k : StorageKey)
    (h : (runWrites initialState evs).get? i = some (some k)) :
    ∃ j, j < i ∧ ∃ ev, evs.get? j = some ev ∧ ev.isLoadDone = true :=
  runWrites_gate evs initialState rfl i k h

/-- C6 witness: in the run [loadDone, save ego] the write at step 1 is
preceded by the load completion. -/
theorem C6_no_write_before_load_completes_witness :
    ∃ j, j < 1 ∧ ∃ ev,
      ([StoreEvent.loadDone [] [] [] defaultSettings,
        StoreEvent.save .ego] : List StoreEvent).get? j = some ev ∧
      ev.isLoadDone = true :=
  C6_no_write_before_load_completes
    [StoreEvent.loadDone [] [] [] defaultSettings, StoreEvent.save .ego]
    1 .ego rfl
